import Mathlib

/-!
Verification development for the rendering and input-annotation core of a
terminal UI runtime (bubbletea fork).

The definitions below are a shallow embedding of the Go source:
 * `clickable.go` — the clickable-region registry (interlinear-annotation
   markers U+FFF9 / U+FFFA / U+FFFB, double-buffered id → clickable maps);
 * the standard renderer (`standard_renderer.go`) — the frame-differencing
   flush, `moveRenderingHead`, `write`, and the fps clamp of `newRenderer`;
 * the cursor-position reply parser (`parseCursorPositionEvent`).

Modelling conventions:
 * Go `int` is `Int`; Go byte slices are `List UInt8`; strings iterated
   rune-by-rune (Go `for i, r := range s`) are `List Char`, with byte
   offsets reconstructed through `Char.utf8Size`.
 * Go maps are association lists; insertion replaces the existing binding
   for the key.  Go map iteration order is irrelevant for every property
   proved below (the theorems either quantify over entries or use
   order-insensitive hypotheses).
 * The external dependency `runewidth.RuneWidth` is an abstract parameter
   `w : Char → Nat`; the external ANSI-aware `truncate.String` is an
   abstract parameter `trunc : Int → String → String`.  All theorems hold
   for every instantiation of these parameters.
 * Terminal output is modelled as a list of `OutTok` tokens, one per
   termenv primitive call / `WriteString`, in emission order.
 * A Go out-of-range slice index panic is modelled by `Option` (`none` =
   panic) in the cursor-position parser; in `flush` the only reachable
   panic (a negative index in `ignoreLines`) is excluded by an explicit
   hypothesis on the theorems concerned.
-/

namespace Tea

/-- Go `cell` from clickable.go: a terminal cell position. -/
structure cell where
  x : Int
  y : Int
deriving DecidableEq, Repr

/-- Go `clickableBounds` from clickable.go.  The Go field `end` is spelled
`endCell` because `end` is a Lean keyword. -/
structure clickableBounds where
  start : cell
  endCell : cell
  sequencePosition : Int
deriving DecidableEq, Repr

/-- Go `(*clickableBounds).containsPoint` from clickable.go, verbatim. -/
def containsPoint (cb : clickableBounds) (p : cell) : Bool :=
  ((cb.start.y < p.y || (cb.start.y == p.y && cb.start.x ≤ p.x)) &&
    (cb.endCell.y > p.y || (cb.endCell.y == p.y && cb.endCell.x ≥ p.x)))

/-- Go `clickable` from clickable.go; `data interface{}` is `Option α`
(`none` = Go `nil`). -/
structure clickable (α : Type) where
  data : Option α
  bounds : clickableBounds
  generation : Int
deriving DecidableEq, Repr

/-- Lookup in an association list modelling a Go map (first binding wins;
insertion keeps at most one binding per key). -/
def alLookup {κ β : Type} [DecidableEq κ] (k : κ) : List (κ × β) → Option β
  | [] => none
  | (k₁, v) :: r => if k₁ = k then some v else alLookup k r

/-- Insertion into an association list modelling a Go map: the new binding
replaces any existing binding of the same key. -/
def alInsert {κ β : Type} [DecidableEq κ] (m : List (κ × β)) (k : κ) (v : β) :
    List (κ × β) :=
  (k, v) :: m.filter (fun p => !(decide (p.1 = k)))

/-- Go `clickableState` from clickable.go. -/
structure clickableState (α : Type) where
  currentGeneration : Int
  idCounter : Int
  stableKeyMap : List (String × Int)
  currentRegistered : List (Int × clickable α)
  nextRegistered : List (Int × clickable α)
deriving DecidableEq, Repr

/-- Go `makeClickableState` from clickable.go. -/
def makeClickableState (α : Type) : clickableState α :=
  { currentGeneration := 0
    idCounter := 0
    stableKeyMap := []
    currentRegistered := []
    nextRegistered := [] }

/-- The cursor advance of the ordinary-rune branch of
`stripClickableSequencesFromFrame` (clickable.go lines 148-155): `\r`
rewinds the column, `\n` starts a new row, anything else advances by the
rune's visible width `w c`. -/
def stepCell (w : Char → Nat) (cur : cell) (c : Char) : cell :=
  if c = '\r' then { cur with x := 0 }
  else if c = '\n' then { x := 0, y := cur.y + 1 }
  else { cur with x := cur.x + (w c : Int) }

/-- Result of the scanning loop of `stripClickableSequencesFromFrame`:
`errNext` models the exits that reset `cr.nextRegistered` (orphan U+FFFA,
orphan U+FFFB, unmatched id); `errCur` models the exits that reset
`cr.currentRegistered` (id-bit followed by ordinary text, unterminated
sequence at end of input), carrying the `nextRegistered` map as mutated so
far; `ok` is normal completion. -/
inductive stripRes (α : Type) where
  | errNext : stripRes α
  | errCur : List (Int × clickable α) → stripRes α
  | ok : List (Int × clickable α) → List Char → stripRes α
deriving DecidableEq, Repr

/-- The rune loop of Go `(*clickableState).stripClickableSequencesFromFrame`
(clickable.go lines 81-165).  Arguments mirror the Go locals: the remaining
runes, the (mutable in Go) `cr.nextRegistered`, `parsingClickableStack`
(top at the head), `currentParsingId`, `prev`, `current`, the accumulated
stripped output (reversed), and the byte offset `i` of the next rune. -/
def stripLoop {α : Type} (w : Char → Nat) (g : Int) :
    List Char → List (Int × clickable α) → List clickableBounds → Int →
    cell → cell → List Char → Nat → stripRes α
  | [], next, _stack, pid, _prev, _cur, acc, _i =>
      if pid ≠ -1 then .errCur next else .ok next acc.reverse
  | c :: cs, next, stack, pid, prev, cur, acc, i =>
      if c = '￹' then
        stripLoop w g cs next
          ({ start := cur, endCell := ⟨0, 0⟩, sequencePosition := (i : Int) } :: stack)
          0 prev cur acc (i + c.utf8Size)
      else if c = '￺' then
        if pid = -1 then .errNext
        else stripLoop w g cs next stack (pid + 1) prev cur acc (i + c.utf8Size)
      else if c = '￻' then
        match stack with
        | [] => .errNext
        | top :: rest =>
          match alLookup pid next with
          | some existing =>
            if existing.generation = g + 1 then
              stripLoop w g cs
                (alInsert next pid { existing with bounds := { top with endCell := prev } })
                rest (if rest = [] then -1 else 0) prev cur acc (i + c.utf8Size)
            else .errNext
          | none => .errNext
      else
        if pid > 0 then .errCur next
        else
          stripLoop w g cs next stack pid cur (stepCell w cur c)
            (c :: acc) (i + c.utf8Size)

/-- Go `(*clickableState).stripClickableSequencesFromFrame`, assembling the
state updates around `stripLoop`.  Returns the updated state and the
returned frame. -/
def stripClickableSequencesFromFrame {α : Type} (w : Char → Nat)
    (cs : clickableState α) (frame : List Char) : clickableState α × List Char :=
  match stripLoop w cs.currentGeneration frame cs.nextRegistered [] (-1) ⟨0, 0⟩ ⟨0, 0⟩ [] 0 with
  | .errNext => ({ cs with nextRegistered := [] }, frame)
  | .errCur next => ({ cs with currentRegistered := [], nextRegistered := next }, frame)
  | .ok next out => ({ cs with nextRegistered := next }, out)

/-- Go `(*clickableState).swapDoubleBuffer` from clickable.go. -/
def swapDoubleBuffer {α : Type} (cs : clickableState α) : clickableState α :=
  { cs with
    currentRegistered := cs.nextRegistered
    nextRegistered := cs.currentRegistered
    currentGeneration := cs.currentGeneration + 1 }

/-- The Go zero value of `clickable` (the initial `bestClicked` of
`getClicked`). -/
def zeroClickable (α : Type) : clickable α :=
  ⟨none, ⟨⟨0, 0⟩, ⟨0, 0⟩, 0⟩, 0⟩

/-- The loop body of `getClicked` (clickable.go lines 184-190): replace the
best candidate when the entry is of the current generation, contains the
point, and its sequence position is at least the best one seen so far. -/
def clickStep {α : Type} (g : Int) (pt : cell) (best : clickable α)
    (p : Int × clickable α) : clickable α :=
  if p.2.generation = g ∧ containsPoint p.2.bounds pt = true ∧
      best.bounds.sequencePosition ≤ p.2.bounds.sequencePosition
  then p.2 else best

/-- Go `(*clickableState).getClicked` from clickable.go: fold over the
registered entries keeping the best match (`bestClicked` starts as the Go
zero value). -/
def getClicked {α : Type} (cs : clickableState α) (x y : Int) : Option α :=
  (cs.currentRegistered.foldl (clickStep cs.currentGeneration ⟨x, y⟩)
    (zeroClickable α)).data

/-- Go `(*clickableState).stableId` from clickable.go; returns the id and
the updated state. -/
def stableId {α : Type} (cs : clickableState α) (key : String) :
    Int × clickableState α :=
  match alLookup key cs.stableKeyMap with
  | some existingId => (existingId, cs)
  | none =>
    (cs.idCounter,
     { cs with
       idCounter := cs.idCounter + 1
       stableKeyMap := alInsert cs.stableKeyMap key cs.idCounter })

/-- Go `(*clickableState).registerAndWrap` from clickable.go: registers the
payload under the stable key's id for the next generation and wraps the
text as `U+FFF9 · wrapped · U+FFFA^id · U+FFFB`. -/
def registerAndWrap {α : Type} (cs : clickableState α) (wrapped : List Char)
    (key : String) (data : α) : clickableState α × List Char :=
  let s := stableId cs key
  ({ s.2 with
     nextRegistered :=
       alInsert s.2.nextRegistered s.1
         { data := some data
           bounds := ⟨⟨0, 0⟩, ⟨0, 0⟩, 0⟩
           generation := cs.currentGeneration + 1 } },
   '￹' :: (wrapped ++ (List.replicate s.1.toNat '￺' ++ ['￻'])))

/-! ## Standard renderer (standard_renderer.go, current revision) -/

/-- One call to a termenv output primitive or `WriteString`, in emission
order.  `text` covers both `WriteString` and the raw `Write([]byte("\n"))`. -/
inductive OutTok where
  | text : String → OutTok
  | clearLine : OutTok
  | cursorUp : Int → OutTok
  | cursorDown : Int → OutTok
  | cursorBack : Int → OutTok
  | moveCursor : Int → Int → OutTok
deriving DecidableEq, Repr

/-- The fields of Go `standardRenderer` that the flush/write logic reads or
writes.  Concurrency machinery (mutex, ticker, done channel, once) and the
output handle are omitted; `ignoreLines` (a Go `map[int]struct{}`) is a
list of row indices. -/
structure RendererState where
  buf : String
  queuedMessageLines : List String
  lastRender : String
  lastRenderLines : List String
  forceRepaint : Bool
  linesRendered : Int
  altScreenActive : Bool
  width : Int
  height : Int
  ignoreLines : List Int
  skipLines : List Bool
  renderingHead : Int
deriving DecidableEq, Repr

/-- Go `defaultFPS`. -/
def defaultFPS : Int := 60

/-- Go `maxFPS`. -/
def maxFPS : Int := 120

/-- The framerate computed by Go `newRenderer` (standard_renderer.go lines
863-881), in nanoseconds: the fps clamp followed by
`time.Second / time.Duration(fps)`. -/
def newRendererFramerate (fps : Int) : Int :=
  let f := if fps < 1 then defaultFPS else if fps > maxFPS then maxFPS else fps
  1000000000 / f

/-- Go `(*standardRenderer).moveRenderingHead` (standard_renderer.go lines
1139-1164).  Returns the new `renderingHead` and the emitted tokens. -/
def moveRenderingHead (toLine renderingHead linesRendered : Int) :
    Int × List OutTok :=
  let delta := toLine - renderingHead
  if delta = 0 then (renderingHead, [])
  else if delta = 1 then (toLine, [.text "\n"])
  else if delta > 0 then
    if toLine > linesRendered then
      (toLine,
       .cursorDown (linesRendered - renderingHead) ::
         List.replicate (toLine - linesRendered).toNat (.text "\n"))
    else (toLine, [.cursorDown delta])
  else (toLine, [.cursorUp (-delta)])

/-- Go line truncation inside `flush`: applies the external ANSI-aware
`truncate.String` (abstract parameter `trunc`) only when `width > 0`. -/
def truncLine (trunc : Int → String → String) (width : Int) (line : String) :
    String :=
  if width > 0 then trunc width line else line

/-- The force-full-flush condition of Go `flush` (standard_renderer.go line
954): queued scrollback lines on the main buffer, or a pending repaint. -/
def flushForce (r : RendererState) : Prop :=
  (r.queuedMessageLines ≠ [] ∧ r.altScreenActive = false) ∨ r.forceRepaint = true

instance (r : RendererState) : Decidable (flushForce r) := by
  unfold flushForce; infer_instance

/-- Go `(*standardRenderer).ensureSkiplinesSize` followed by the zeroing
loop: semantically, `skipLines` becomes all-`false` with length
`max (previous length) skipCap`. -/
def ensureSkiplinesSize (old : List Bool) (skipCap : Int) : List Bool :=
  List.replicate (max old.length skipCap.toNat) false

/-- The ignored-lines marking loop of `flush` (lines 1027-1031): for each
`i` in `ignoreLines` with `i < skipCap`, set `skipLines[i]`.  A negative
`i` would panic in Go; here it leaves the buffer unchanged, and the
theorems about `flush` assume `ignoreLines` is free of negative indices. -/
def markIgnored (ignoreLines : List Int) (skipCap : Int) (sk : List Bool) :
    List Bool :=
  ignoreLines.foldl
    (fun a i => if 0 ≤ i ∧ i < skipCap then a.set i.toNat true else a) sk

/-- The diffing loop of `flush` (lines 1034-1043): mark unchanged lines and
ignored lines of the previous render as skipped. -/
def markDiff (newLines lastRenderLines : List String) (ignoreLines : List Int)
    (linesRendered : Nat) (sk : List Bool) : List Bool :=
  (List.range linesRendered).foldl
    (fun a i =>
      if i < newLines.length ∧ i < lastRenderLines.length ∧
          newLines.getD i "" = lastRenderLines.getD i ""
      then a.set i true
      else if (i : Int) ∈ ignoreLines then a.set i true else a) sk

/-- The full-repaint painting loop of `flush` (lines 994-1011): for each
line, `ClearLine`, the (possibly truncated) line, then `"\r\n"` unless it
is the last line. -/
def paintFull (trunc : Int → String → String) (width : Int) (total : Nat) :
    Nat → List String → List OutTok
  | _, [] => []
  | i, l :: ls =>
    .clearLine :: .text (truncLine trunc width l) ::
      ((if i < total - 1 then [.text "\r\n"] else []) ++
        paintFull trunc width total (i + 1) ls)

/-- The queued-scrollback dump of the full-repaint path (lines 985-989). -/
def queueOut (ls : List String) : List OutTok :=
  (ls.map (fun l => [OutTok.clearLine, .text l, .text "\r\n"])).flatten

/-- The incremental painting loop of `flush` (lines 1046-1075), threading
`renderingHead` and the emitted tokens. -/
def paintDiff (trunc : Int → String → String) (width linesRendered : Int)
    (total : Nat) (sk : List Bool) (newLines : List String) (head0 : Int) :
    Int × List OutTok :=
  (List.range total).foldl
    (fun (st : Int × List OutTok) i =>
      if sk.getD i false then st
      else
        let mv := moveRenderingHead (i : Int) st.1 linesRendered
        (mv.1,
         st.2 ++ mv.2 ++ (if (i : Int) < linesRendered then [.clearLine] else []) ++
           [.text (truncLine trunc width (newLines.getD i ""))] ++
           (if i < total - 1 then [.text "\r"] else [])))
    (head0, [])

/-- The leftover-clearing loop of `flush` (lines 1081-1087): rows of the
previous render below the new frame are visited and cleared unless
skipped. -/
def clearLeftovers (linesRendered : Int) (sk : List Bool) (fromLine toLine : Nat)
    (head0 : Int) : Int × List OutTok :=
  ((List.range toLine).drop fromLine).foldl
    (fun (st : Int × List OutTok) i =>
      if sk.getD i false then st
      else
        let mv := moveRenderingHead (i : Int) st.1 linesRendered
        (mv.1, st.2 ++ mv.2 ++ [.clearLine]))
    (head0, [])

/-- The resting-cursor emission at the end of `flush` (lines 1097-1112). -/
def restingTok (altScreenActive : Bool) (renderingHead width : Int) : OutTok :=
  if altScreenActive then .moveCursor (renderingHead + 1) 0 else .cursorBack width

/-- Splitting a rune list at every occurrence of `sep` (Go
`strings.Split` with a one-rune separator). -/
def splitOnChar (sep : Char) : List Char → List (List Char)
  | [] => [[]]
  | c :: cs =>
    match splitOnChar sep cs with
    | [] => [[]]
    | h :: t => if c = sep then [] :: h :: t else (c :: h) :: t

/-- Go `strings.Split(s, "\n")`. -/
def splitLines (s : String) : List String :=
  (splitOnChar '\n' s.data).map (fun l => { data := l : String })

/-- The height clipping of `flush` (standard_renderer.go lines 972-974):
when the terminal height is known and the frame is taller, drop lines from
the top so the last `height` lines remain. -/
def clipLines (height : Int) (lines : List String) : List String :=
  if 0 < height ∧ height < (lines.length : Int)
  then lines.drop (lines.length - height.toNat) else lines

/-- The body of Go `flush` once the early exit has been passed
(standard_renderer.go lines 962-1119): height clipping, then either the
full-repaint path or the incremental diff path, then the resting cursor
and the commit of `lastRender`/`lastRenderLines`/`linesRendered`.
`r` is the state at entry (before `forceRepaint` is cleared), `r1` the
state with `forceRepaint := false`. -/
def flushBody (trunc : Int → String → String) (r r1 : RendererState) :
    RendererState × List OutTok :=
  let bufString := r.buf
  let newLines := clipLines r.height (splitLines bufString)
  let n := newLines.length
  if flushForce r then
    let mv := if r.renderingHead ≠ 0
      then moveRenderingHead 0 r.renderingHead r.linesRendered
      else (r.renderingHead, [])
    let rh : Int := (n : Int) - 1
    ({ r1 with
       queuedMessageLines := []
       renderingHead := rh
       linesRendered := (n : Int)
       lastRenderLines := newLines
       lastRender := bufString
       buf := "" },
     mv.2 ++ queueOut r.queuedMessageLines ++ paintFull trunc r.width n 0 newLines ++
       [restingTok r.altScreenActive rh r.width])
  else
    let skipCap : Int := max r.linesRendered (n : Int)
    let sk := markDiff newLines r.lastRenderLines r.ignoreLines r.linesRendered.toNat
      (markIgnored r.ignoreLines skipCap (ensureSkiplinesSize r.skipLines skipCap))
    let pd := paintDiff trunc r.width r.linesRendered n sk newLines r.renderingHead
    let fin :=
      if (n : Int) < r.linesRendered then
        let cl := clearLeftovers r.linesRendered sk n r.linesRendered.toNat pd.1
        let mv := moveRenderingHead ((n : Int) - 1) cl.1 r.linesRendered
        (mv.1, OutTok.text "\r" :: (cl.2 ++ mv.2))
      else (pd.1, ([] : List OutTok))
    ({ r1 with
       skipLines := sk
       renderingHead := fin.1
       linesRendered := (n : Int)
       lastRenderLines := newLines
       lastRender := bufString
       buf := "" },
     pd.2 ++ fin.2 ++ [restingTok r.altScreenActive fin.1 r.width])

/-- Go `(*standardRenderer).flush` (standard_renderer.go lines 950-1120):
clear `forceRepaint`, take the early exit when nothing forces a write and
the pending buffer is empty or identical to the last render, otherwise run
the body.  Returns the updated state and the tokens written to the
output. -/
def flush (trunc : Int → String → String) (r : RendererState) :
    RendererState × List OutTok :=
  let r1 := { r with forceRepaint := false }
  if ¬flushForce r ∧ (r.buf = "" ∨ r.buf = r.lastRender) then (r1, [])
  else flushBody trunc r r1

/-- Go `(*standardRenderer).write` (standard_renderer.go lines 1168-1182):
reset the pending buffer and store `s`, substituting a single space for
the empty string. -/
def write (r : RendererState) (s : String) : RendererState :=
  { r with buf := if s = "" then " " else s }

/-! ## Cursor-position reply parser (tty / key handling) -/

/-- Go `CursorPositionMsg`. -/
structure CursorPositionMsg where
  X : Int
  Y : Int
deriving DecidableEq, Repr

/-- Result of the scanning loop of `parseCursorPositionEvent`: either the
loop returned early because of a second semicolon, or it finished with
`endIdx` (0 when no terminating `R` was found) and the optional semicolon
index. -/
inductive ScanRes where
  | twoSemis : ScanRes
  | done : Nat → Option Nat → ScanRes
deriving DecidableEq, Repr

/-- The byte scan of `parseCursorPositionEvent` (lines 19-31): find the
first `R` (0x52), tracking the first `;` (0x3B) and failing on a second
one. -/
def cprScan : List UInt8 → Nat → Option Nat → ScanRes
  | [], _, sep => .done 0 sep
  | c :: rest, i, sep =>
    if c = 59 then
      match sep with
      | some _ => .twoSemis
      | none => cprScan rest (i + 1) (some i)
    else if c = 82 then .done i sep
    else cprScan rest (i + 1) sep

/-- Go's `strconv.Atoi`: an optional single sign followed by at least one
decimal digit, with the value required to fit a 64-bit int.  `none` is a
parse error. -/
def goAtoi (s : List UInt8) : Option Int :=
  let sd : Bool × List UInt8 :=
    match s with
    | 43 :: rest => (false, rest)
    | 45 :: rest => (true, rest)
    | _ => (false, s)
  if sd.2 = [] then none
  else if sd.2.all (fun c => 48 ≤ c && c ≤ 57) then
    let n : Nat := sd.2.foldl (fun acc c => acc * 10 + (c.toNat - 48)) 0
    let v : Int := if sd.1 then -(n : Int) else (n : Int)
    if -(2 ^ 63) ≤ v ∧ v ≤ 2 ^ 63 - 1 then some v else none
  else none

/-- The Go slice `buf[a:b]` of a byte buffer (bounds already validated by
the caller). -/
def byteSlice (buf : List UInt8) (a b : Nat) : List UInt8 :=
  (buf.drop a).take (b - a)

/-- Go `parseCursorPositionEvent` (cursor.go lines 14-55).  Returns `none`
for the out-of-range slice panic `buf[2:sepIdx]` (possible only when a
semicolon occurs at offset 0 or 1, i.e. never when the buffer starts with
`ESC [`); otherwise `some (ev, consumed)` exactly as the Go function
returns them, `consumed = -1` signalling failure. -/
def parseCursorPositionEvent (buf : List UInt8) :
    Option (CursorPositionMsg × Int) :=
  match cprScan buf 0 none with
  | .twoSemis => some (⟨0, 0⟩, -1)
  | .done endIdx sep =>
    if endIdx = 0 then some (⟨0, 0⟩, -1)
    else
      match sep with
      | none => some (⟨0, 0⟩, -1)
      | some sepIdx =>
        if ¬buf.contains 59 then some (⟨0, 0⟩, -1)
        else if sepIdx < 2 then none
        else
          match goAtoi (byteSlice buf 2 sepIdx) with
          | none => some (⟨0, 0⟩, -1)
          | some y =>
            match goAtoi (byteSlice buf (sepIdx + 1) endIdx) with
            | none => some (⟨0, y⟩, -1)
            | some x => some (⟨x, y⟩, (endIdx : Int) + 1)

/-! ## Specification-side helper definitions

These do not model source code; they are the vocabulary in which the
claims' statements are expressed (cell advance over a marker-free text,
UTF-8 length, first-occurrence index in a byte buffer, and the declarative
success condition of the cursor-position reply parser). -/

/-- `(prev, current)` after consuming a list of ordinary runes, as the
strip loop does: `prev` trails one rune behind `current`. -/
def advPC (w : Char → Nat) (pc : cell × cell) : List Char → cell × cell
  | [] => pc
  | c :: cs => advPC w (pc.2, stepCell w pc.2 c) cs

/-- Total UTF-8 byte length of a list of runes (the byte-offset advance of
Go `for i, r := range s`). -/
def utf8Len : List Char → Nat
  | [] => 0
  | c :: cs => c.utf8Size + utf8Len cs

/-- The three interlinear-annotation marker runes. -/
def isMarkerRune (c : Char) : Prop := c = '￹' ∨ c = '￺' ∨ c = '￻'

instance (c : Char) : Decidable (isMarkerRune c) := by
  unfold isMarkerRune; infer_instance

/-- Index of the first byte satisfying `p`, or `none`. -/
def firstIdx (p : UInt8 → Bool) : List UInt8 → Option Nat
  | [] => none
  | c :: l => if p c then some 0 else (firstIdx p l).map (· + 1)

/-- The terminating byte `R` of a cursor-position reply. -/
def isRByte (c : UInt8) : Bool := c == 82

/-- The separator byte `;` of a cursor-position reply. -/
def isSemiByte (c : UInt8) : Bool := c == 59

/-- Declarative success condition for the cursor-position reply parser,
formalising the claim: the buffer has a terminating `R` (first occurrence
at `r`), exactly one `;` before it (the buffer's first `;`, at `s`), and
both numeric components parse per Go `strconv.Atoi`. -/
def cprSuccess (buf : List UInt8) : Prop :=
  ∃ r s y x,
    firstIdx isRByte buf = some r ∧
    firstIdx isSemiByte buf = some s ∧ s < r ∧
    ((buf.take r).filter isSemiByte).length = 1 ∧
    goAtoi (byteSlice buf 2 s) = some y ∧
    goAtoi (byteSlice buf (s + 1) r) = some x

/-! ## Concrete instances used by witnesses and counterexamples -/

/-- A concrete rune-width function (every rune one column wide). -/
def wOne : Char → Nat := fun _ => 1

/-- A concrete truncation function (identity). -/
def truncId : Int → String → String := fun _ s => s

/-- An operational trace of the registry: register `"k"` in frame 1,
swap, then run two further frames (a plain strip plus a swap each) without
re-registering the key. -/
def staleGenTrace : clickableState String :=
  let r1 := registerAndWrap (makeClickableState String) ['A'] "k" "d"
  let s2 := swapDoubleBuffer (stripClickableSequencesFromFrame wOne r1.1 r1.2).1
  let s3 := swapDoubleBuffer (stripClickableSequencesFromFrame wOne s2 ['x']).1
  swapDoubleBuffer (stripClickableSequencesFromFrame wOne s3 ['x']).1

/-- A registry state in mid-frame: frame 1 registered and stripped key
`"k1"` and was swapped in (so `currentRegistered` holds a valid map), and
frame 2 has already registered key `"k2"` into `nextRegistered`. -/
def malformedStripPre : clickableState String :=
  let r1 := registerAndWrap (makeClickableState String) ['A'] "k1" "d1"
  let s2 := swapDoubleBuffer (stripClickableSequencesFromFrame wOne r1.1 r1.2).1
  (registerAndWrap s2 ['B'] "k2" "d2").1

/-- `malformedStripPre` fed a frame consisting of a lone `U+FFF9`
(unterminated clickable sequence). -/
def malformedStripRun : clickableState String × List Char :=
  stripClickableSequencesFromFrame wOne malformedStripPre ['￹']

/-- A renderer state with some previous render on screen, used to observe
the effect of `write ""`. -/
def emptyWriteState : RendererState :=
  { buf := ""
    queuedMessageLines := []
    lastRender := "old"
    lastRenderLines := ["old"]
    forceRepaint := false
    linesRendered := 1
    altScreenActive := false
    width := 20
    height := 10
    ignoreLines := []
    skipLines := []
    renderingHead := 0 }

/-- A renderer state holding a 4-line pending frame on a height-2
terminal. -/
def tallFrameState : RendererState :=
  { buf := "a\nb\nc\nd"
    queuedMessageLines := []
    lastRender := ""
    lastRenderLines := []
    forceRepaint := false
    linesRendered := 0
    altScreenActive := false
    width := 0
    height := 2
    ignoreLines := []
    skipLines := []
    renderingHead := 0 }

/-- A renderer state holding a 2-line pending frame with unknown terminal
height. -/
def unknownHeightState : RendererState :=
  { tallFrameState with buf := "a\nb", height := 0 }

/-- A clickable overdrawing the first 16 columns of row 0, registered from
an opening marker at byte offset 81. -/
def overdrawClick : clickable String :=
  ⟨some "B", ⟨⟨0, 0⟩, ⟨15, 0⟩, 81⟩, 1⟩

/-- Registry state after a frame in which clickable `"A"` (columns 0-24 of
row 0, opening marker at offset 0) was overdrawn via `\r` by
`overdrawClick`. -/
def overlapState : clickableState String :=
  { currentGeneration := 1
    idCounter := 2
    stableKeyMap := [("link-1", 0), ("link-2", 1)]
    currentRegistered := [(0, ⟨some "A", ⟨⟨0, 0⟩, ⟨24, 0⟩, 0⟩, 1⟩), (1, overdrawClick)]
    nextRegistered := [] }

end Tea

/-! # Theorems -/

namespace Tea

/-- `alLookup` only returns bindings present in the list. -/
theorem alLookup_mem {κ β : Type} [DecidableEq κ] {k : κ} {v : β} :
    ∀ {m : List (κ × β)}, alLookup k m = some v → (k, v) ∈ m := by
  intro m
  induction m with
  | nil => intro h; simp [alLookup] at h
  | cons p r ih =>
    intro h
    rw [alLookup] at h
    by_cases hk : p.1 = k
    · rw [if_pos hk] at h
      have hp : p = (k, v) := by
        cases p
        simp_all
      rw [hp] at *
      exact List.mem_cons_self _ _
    · rw [if_neg hk] at h
      exact List.mem_cons_of_mem _ (ih h)

/-- Looking up the freshly inserted key returns the new value. -/
theorem alLookup_insert_self {κ β : Type} [DecidableEq κ] (m : List (κ × β))
    (k : κ) (v : β) : alLookup k (alInsert m k v) = some v := by
  simp [alInsert, alLookup]

/-- Membership in an inserted map: the new binding, or an old binding of a
different key. -/
theorem mem_alInsert {κ β : Type} [DecidableEq κ] {m : List (κ × β)}
    {k : κ} {v : β} {p : κ × β} (h : p ∈ alInsert m k v) :
    p = (k, v) ∨ p ∈ m := by
  rcases List.mem_cons.mp h with h1 | h1
  · exact Or.inl h1
  · exact Or.inr (List.mem_of_mem_filter h1)

/-- C4 (counterexample): the claim fails at `fps = 200`: `newRenderer`
clamps out-of-range fps above 120 to `maxFPS = 120`, so the tick period is
`1s / 120`, not the claimed default `1s / 60`. -/
theorem c4_fps_counterexample :
    newRendererFramerate 200 = 1000000000 / 120 ∧
    newRendererFramerate 200 ≠ 1000000000 / 60 := by
  constructor <;> decide

/-- C4 (amended): the renderer's tick period is `1s / fps` for
`fps ∈ [1, 120]`, `1s / 60` when `fps < 1` (zero or negative), and
`1s / 120` (the clamp to `maxFPS`) when `fps > 120`. -/
theorem c4_fps_amended (fps : Int) :
    (1 ≤ fps → fps ≤ 120 → newRendererFramerate fps = 1000000000 / fps) ∧
    (fps < 1 → newRendererFramerate fps = 1000000000 / 60) ∧
    (120 < fps → newRendererFramerate fps = 1000000000 / 120) := by
  unfold newRendererFramerate defaultFPS maxFPS
  refine ⟨fun h1 h2 => ?_, fun h => ?_, fun h => ?_⟩
  · rw [if_neg (by omega), if_neg (by omega)]
  · rw [if_pos h]
  · rw [if_neg (by omega), if_pos (by omega)]

/-- Witness for C4 (amended) at `fps = 60`, `fps = 0` and `fps = 200`. -/
theorem c4_fps_amended_witness :
    ((1 : Int) ≤ 60 ∧ (60 : Int) ≤ 120 ∧ newRendererFramerate 60 = 1000000000 / 60) ∧
    ((0 : Int) < 1 ∧ newRendererFramerate 0 = 1000000000 / 60) ∧
    ((120 : Int) < 200 ∧ newRendererFramerate 200 = 1000000000 / 120) :=
  ⟨⟨by decide, by decide, (c4_fps_amended 60).1 (by decide) (by decide)⟩,
   ⟨by decide, (c4_fps_amended 0).2.1 (by decide)⟩,
   ⟨by decide, (c4_fps_amended 200).2.2 (by decide)⟩⟩

/-- C9 (confirmed): `moveRenderingHead` emits exactly: nothing when the
target equals the rendering head; one `\n` when the delta is `+1`;
`CUD(linesRendered - renderingHead)` followed by `target - linesRendered`
literal `\n`s when the delta is positive and the target lies beyond
`linesRendered`; `CUD(delta)` for any other positive delta; `CUU(-delta)`
for negative delta — and always leaves the rendering head at the target. -/
theorem c9_moveRenderingHead (t h l : Int) :
    (moveRenderingHead t h l).1 = t ∧
    (t = h → (moveRenderingHead t h l).2 = []) ∧
    (t = h + 1 → (moveRenderingHead t h l).2 = [.text "\n"]) ∧
    (h < t → t ≠ h + 1 → l < t →
      (moveRenderingHead t h l).2 =
        .cursorDown (l - h) :: List.replicate (t - l).toNat (.text "\n")) ∧
    (h < t → t ≠ h + 1 → t ≤ l →
      (moveRenderingHead t h l).2 = [.cursorDown (t - h)]) ∧
    (t < h → (moveRenderingHead t h l).2 = [.cursorUp (h - t)]) := by
  unfold moveRenderingHead
  by_cases h0 : t - h = 0
  · rw [if_pos h0]
    refine ⟨by omega, fun _ => rfl, by omega, by omega, by omega, by omega⟩
  · rw [if_neg h0]
    by_cases h1 : t - h = 1
    · rw [if_pos h1]
      refine ⟨rfl, by omega, fun _ => rfl, by omega, by omega, by omega⟩
    · rw [if_neg h1]
      by_cases h2 : t - h > 0
      · rw [if_pos h2]
        by_cases h3 : t > l
        · rw [if_pos h3]
          refine ⟨rfl, by omega, by omega, fun _ _ _ => rfl, by omega, by omega⟩
        · rw [if_neg h3]
          refine ⟨rfl, by omega, by omega, by omega, fun _ _ _ => rfl, by omega⟩
      · rw [if_neg h2]
        refine ⟨rfl, by omega, by omega, by omega, by omega, fun _ => ?_⟩
        rw [neg_sub]

/-- Witness for C9 covering each motion case: no move, `+1`, a jump past
`linesRendered`, an ordinary downward jump, and an upward jump. -/
theorem c9_moveRenderingHead_witness :
    ((0 : Int) = 0 ∧ (moveRenderingHead 0 0 3).2 = []) ∧
    ((1 : Int) = 0 + 1 ∧ (moveRenderingHead 1 0 3).2 = [.text "\n"]) ∧
    ((1 : Int) < 5 ∧ (5 : Int) ≠ 1 + 1 ∧ (3 : Int) < 5 ∧
      (moveRenderingHead 5 1 3).2 =
        .cursorDown 2 :: List.replicate 2 (.text "\n")) ∧
    ((1 : Int) < 3 ∧ (3 : Int) ≠ 1 + 1 ∧ (3 : Int) ≤ 5 ∧
      (moveRenderingHead 3 1 5).2 = [.cursorDown 2]) ∧
    ((0 : Int) < 2 ∧ (moveRenderingHead 0 2 5).2 = [.cursorUp 2]) :=
  ⟨⟨rfl, (c9_moveRenderingHead 0 0 3).2.1 rfl⟩,
   ⟨rfl, (c9_moveRenderingHead 1 0 3).2.2.1 rfl⟩,
   ⟨by decide, by decide, by decide,
     (c9_moveRenderingHead 5 1 3).2.2.2.1 (by decide) (by decide) (by decide)⟩,
   ⟨by decide, by decide, by decide,
     (c9_moveRenderingHead 3 1 5).2.2.2.2.1 (by decide) (by decide) (by decide)⟩,
   ⟨by decide, (c9_moveRenderingHead 0 2 5).2.2.2.2.2 (by decide)⟩⟩

/-- C2 (counterexample): the claim fails on an operational trace.  After
registering key `"k"` in frame 1 and then running two frames that do not
re-register it, the third `swapDoubleBuffer` brings the generation-1 entry
back into `currentRegistered` while `currentGeneration = 3`: the swap does
not evict entries of older generations from the map. -/
theorem c2_swap_counterexample :
    staleGenTrace.currentGeneration = 3 ∧
    staleGenTrace.currentRegistered ≠ [] ∧
    staleGenTrace.currentRegistered.all
      (fun p => p.2.generation != staleGenTrace.currentGeneration) = true := by
  refine ⟨by decide, by decide, by decide⟩

/-- C2 (amended): provided every entry of `nextRegistered` was registered
for the upcoming generation (`generation = currentGeneration + 1`, as
`registerAndWrap` guarantees and preserves), after `swapDoubleBuffer` every
id in `currentRegistered` has `generation = currentGeneration`.  Entries
from older generations are not physically evicted by the swap (see the
counterexample); they are excluded at query time by `getClicked`'s
generation filter. -/
theorem c2_swap_generation_amended {α : Type} (cs : clickableState α)
    (h : ∀ p ∈ cs.nextRegistered, p.2.generation = cs.currentGeneration + 1) :
    (∀ p ∈ (swapDoubleBuffer cs).currentRegistered,
       p.2.generation = (swapDoubleBuffer cs).currentGeneration) ∧
    (∀ (s : List Char) (k : String) (d : α),
       ∀ p ∈ (registerAndWrap cs s k d).1.nextRegistered,
         p.2.generation = cs.currentGeneration + 1) := by
  constructor
  · intro p hp
    exact h p hp
  · intro s k d p hp
    have hnext : (stableId cs k).2.nextRegistered = cs.nextRegistered := by
      unfold stableId
      cases alLookup k cs.stableKeyMap <;> rfl
    unfold registerAndWrap at hp
    simp only [hnext] at hp
    rcases mem_alInsert hp with h1 | h1
    · rw [h1]
    · exact h p h1

/-- Witness for C2 (amended) on a freshly registered one-entry state. -/
theorem c2_swap_generation_amended_witness :
    (∀ p ∈ (registerAndWrap (makeClickableState String) ['A'] "k" "d").1.nextRegistered,
       p.2.generation =
         (makeClickableState String).currentGeneration + 1) ∧
    (∀ p ∈ (swapDoubleBuffer
        (registerAndWrap (makeClickableState String) ['A'] "k" "d").1).currentRegistered,
       p.2.generation =
         (swapDoubleBuffer
           (registerAndWrap (makeClickableState String) ['A'] "k" "d").1).currentGeneration) :=
  ⟨by decide,
   (c2_swap_generation_amended
     (registerAndWrap (makeClickableState String) ['A'] "k" "d").1 (by decide)).1⟩

/-- C1 (code evaluation at the failing input): with frame 1's valid map in
`currentRegistered` and key `"k2"` freshly registered into
`nextRegistered`, stripping the malformed frame `"￹"` (lone U+FFF9,
unterminated at end of input) returns the frame unchanged — but clears
`currentRegistered` (the valid previous frame's map) and leaves
`nextRegistered` non-empty, contradicting the claim (and the intent stated
by the tests' assertion messages) that `nextRegistered` is left empty. -/
theorem c1_malformed_divergence :
    malformedStripPre.currentRegistered ≠ [] ∧
    malformedStripPre.nextRegistered.map Prod.fst = [1] ∧
    malformedStripRun.2 = ['￹'] ∧
    malformedStripRun.1.nextRegistered = malformedStripPre.nextRegistered ∧
    malformedStripRun.1.nextRegistered ≠ [] ∧
    malformedStripRun.1.currentRegistered = [] := by
  refine ⟨by decide, by decide, by decide, by decide, by decide, by decide⟩

/-- Once the best candidate carries the winning payload and the maximal
sequence position, the rest of the fold cannot change the payload: any
later replacement is a relevant entry of equal sequence position, which by
hypothesis carries the same payload. -/
theorem clickFold_stay {α : Type} (g : Int) (pt : cell) (c : clickable α) :
    ∀ (L : List (Int × clickable α)) (b : clickable α),
      (∀ q ∈ L, q.2.generation = g → containsPoint q.2.bounds pt = true →
        q.2.bounds.sequencePosition ≤ c.bounds.sequencePosition) →
      (∀ q ∈ L, q.2.generation = g → containsPoint q.2.bounds pt = true →
        q.2.bounds.sequencePosition = c.bounds.sequencePosition →
        q.2.data = c.data) →
      b.data = c.data → c.bounds.sequencePosition ≤ b.bounds.sequencePosition →
      (L.foldl (clickStep g pt) b).data = c.data := by
  intro L
  induction L with
  | nil => intro b _ _ hd _; simpa using hd
  | cons q L ih =>
    intro b hmax htie hd hs
    rw [List.foldl_cons]
    unfold clickStep
    split
    · next hcond =>
      rcases hcond with ⟨hg, hct, hle⟩
      have h1 : q.2.bounds.sequencePosition ≤ c.bounds.sequencePosition :=
        hmax q (List.mem_cons_self _ _) hg hct
      have h2 : q.2.bounds.sequencePosition = c.bounds.sequencePosition := by
        omega
      exact ih q.2
        (fun p hp => hmax p (List.mem_cons_of_mem _ hp))
        (fun p hp => htie p (List.mem_cons_of_mem _ hp))
        (htie q (List.mem_cons_self _ _) hg hct h2) (by omega)
    · exact ih b
        (fun p hp => hmax p (List.mem_cons_of_mem _ hp))
        (fun p hp => htie p (List.mem_cons_of_mem _ hp)) hd hs

/-- If a relevant entry `c` of maximal sequence position occurs in the
list and the initial candidate is not above it, the fold ends on `c`'s
payload. -/
theorem clickFold_reach {α : Type} (g : Int) (pt : cell) (idc : Int)
    (c : clickable α) :
    ∀ (L : List (Int × clickable α)) (b : clickable α),
      (idc, c) ∈ L → c.generation = g → containsPoint c.bounds pt = true →
      (∀ q ∈ L, q.2.generation = g → containsPoint q.2.bounds pt = true →
        q.2.bounds.sequencePosition ≤ c.bounds.sequencePosition) →
      (∀ q ∈ L, q.2.generation = g → containsPoint q.2.bounds pt = true →
        q.2.bounds.sequencePosition = c.bounds.sequencePosition →
        q.2.data = c.data) →
      b.bounds.sequencePosition ≤ c.bounds.sequencePosition →
      (L.foldl (clickStep g pt) b).data = c.data := by
  intro L
  induction L with
  | nil => intro b hmem; exact absurd hmem (List.not_mem_nil _)
  | cons q L ih =>
    intro b hmem hg hct hmax htie hb
    rw [List.foldl_cons]
    rcases List.mem_cons.mp hmem with h1 | h1
    · have hq : clickStep g pt b q = c := by
        unfold clickStep
        rw [← h1]
        rw [if_pos (⟨hg, hct, hb⟩ :
          (idc, c).2.generation = g ∧
            containsPoint (idc, c).2.bounds pt = true ∧
            b.bounds.sequencePosition ≤ (idc, c).2.bounds.sequencePosition)]
      rw [hq]
      exact clickFold_stay g pt c L c
        (fun p hp => hmax p (List.mem_cons_of_mem _ hp))
        (fun p hp => htie p (List.mem_cons_of_mem _ hp)) rfl le_rfl
    · have hnext : (clickStep g pt b q).bounds.sequencePosition ≤
          c.bounds.sequencePosition := by
        unfold clickStep
        split
        · next hcond =>
          exact hmax q (List.mem_cons_self _ _) hcond.1 hcond.2.1
        · exact hb
      exact ih (clickStep g pt b q) h1 hg hct
        (fun p hp => hmax p (List.mem_cons_of_mem _ hp))
        (fun p hp => htie p (List.mem_cons_of_mem _ hp)) hnext

/-- C6 (confirmed): `getClicked (x, y)` returns the payload of the
registered entry of the current generation whose bounds contain `(x, y)`
and whose `sequencePosition` is maximal among containing entries (entries
tied at the maximum must carry the same payload, which holds for real
frames where sequence positions are distinct byte offsets); a frame byte
offset is never negative, whence the `0 ≤ sequencePosition` hypothesis.
Containment is inclusive of both the start and the end cell whenever the
bounds are non-degenerate (start not past end), so on overlap the larger
byte offset wins. -/
theorem c6_getClicked {α : Type} :
    (∀ (cs : clickableState α) (x y idc : Int) (c : clickable α),
      (idc, c) ∈ cs.currentRegistered →
      c.generation = cs.currentGeneration →
      containsPoint c.bounds ⟨x, y⟩ = true →
      0 ≤ c.bounds.sequencePosition →
      (∀ q ∈ cs.currentRegistered, q.2.generation = cs.currentGeneration →
        containsPoint q.2.bounds ⟨x, y⟩ = true →
        q.2.bounds.sequencePosition ≤ c.bounds.sequencePosition) →
      (∀ q ∈ cs.currentRegistered, q.2.generation = cs.currentGeneration →
        containsPoint q.2.bounds ⟨x, y⟩ = true →
        q.2.bounds.sequencePosition = c.bounds.sequencePosition →
        q.2.data = c.data) →
      getClicked cs x y = c.data) ∧
    (∀ cb : clickableBounds,
      (cb.start.y < cb.endCell.y ∨
        (cb.start.y = cb.endCell.y ∧ cb.start.x ≤ cb.endCell.x)) →
      containsPoint cb cb.start = true ∧ containsPoint cb cb.endCell = true) := by
  constructor
  · intro cs x y idc c hmem hg hct hpos hmax htie
    unfold getClicked
    exact clickFold_reach cs.currentGeneration ⟨x, y⟩ idc c
      cs.currentRegistered (zeroClickable α) hmem hg hct hmax htie hpos
  · intro cb hle
    rcases hle with h1 | ⟨h1, h2⟩ <;>
      constructor <;>
      · unfold containsPoint
        simp only [Bool.and_eq_true, Bool.or_eq_true, decide_eq_true_eq,
          beq_iff_eq, true_and, and_true]
        omega

/-- Witness for C6: on `overlapState` (two overlapping clickables from a
`\r` overdraw) a click at `(0, 0)` resolves to the entry with the larger
sequence position, and containment is inclusive of both corner cells. -/
theorem c6_getClicked_witness :
    getClicked overlapState 0 0 = some "B" ∧
    containsPoint ⟨⟨6, 1⟩, ⟨9, 1⟩, 17⟩ ⟨6, 1⟩ = true ∧
    containsPoint ⟨⟨6, 1⟩, ⟨9, 1⟩, 17⟩ ⟨9, 1⟩ = true :=
  ⟨(@c6_getClicked String).1 overlapState 0 0 1 overdrawClick (by decide) (by decide)
      (by decide) (by decide) (by decide) (by decide),
   ((@c6_getClicked String).2 ⟨⟨6, 1⟩, ⟨9, 1⟩, 17⟩ (by decide)).1,
   ((@c6_getClicked String).2 ⟨⟨6, 1⟩, ⟨9, 1⟩, 17⟩ (by decide)).2⟩

/-- An opening marker pushes a new in-progress bounds and starts the id
accumulator. -/
theorem stripLoop_open {α : Type} (w : Char → Nat) (g : Int)
    (next : List (Int × clickable α)) (cs : List Char)
    (stack : List clickableBounds) (pid : Int) (prev cur : cell)
    (acc : List Char) (i : Nat) :
    stripLoop w g ('￹' :: cs) next stack pid prev cur acc i =
      stripLoop w g cs next
        ({ start := cur, endCell := ⟨0, 0⟩, sequencePosition := (i : Int) } :: stack)
        0 prev cur acc (i + '￹'.utf8Size) := by
  simp [stripLoop]

/-- A marker-free text segment is copied to the output while the cursor
advances; the stack, id state and registry are untouched. -/
theorem stripLoop_text {α : Type} (w : Char → Nat) (g : Int)
    (next : List (Int × clickable α)) (stack : List clickableBounds)
    (pid : Int) (hpid : ¬pid > 0) :
    ∀ (S rest : List Char) (prev cur : cell) (acc : List Char) (i : Nat),
      (∀ c ∈ S, ¬isMarkerRune c) →
      stripLoop w g (S ++ rest) next stack pid prev cur acc i =
        stripLoop w g rest next stack pid (advPC w (prev, cur) S).1
          (advPC w (prev, cur) S).2 (S.reverse ++ acc) (i + utf8Len S) := by
  intro S
  induction S with
  | nil =>
    intro rest prev cur acc i _
    simp [advPC, utf8Len]
  | cons c S ih =>
    intro rest prev cur acc i hS
    have hc := hS c (List.mem_cons_self _ _)
    have h9 : ¬c = '￹' := fun h => hc (Or.inl h)
    have hA : ¬c = '￺' := fun h => hc (Or.inr (Or.inl h))
    have hB : ¬c = '￻' := fun h => hc (Or.inr (Or.inr h))
    rw [List.cons_append]
    simp only [stripLoop]
    rw [if_neg h9, if_neg hA, if_neg hB, if_neg hpid]
    rw [ih rest cur (stepCell w cur c) (c :: acc) (i + c.utf8Size)
      (fun d hd => hS d (List.mem_cons_of_mem _ hd))]
    show _ = stripLoop w g rest next stack pid
      (advPC w ((prev, cur).2, stepCell w (prev, cur).2 c) S).1
      (advPC w ((prev, cur).2, stepCell w (prev, cur).2 c) S).2
      ((c :: S).reverse ++ acc) (i + utf8Len (c :: S))
    rw [List.reverse_cons, List.append_assoc, List.singleton_append]
    show _ = stripLoop w g rest next stack pid _ _ _ (i + (c.utf8Size + utf8Len S))
    rw [← Nat.add_assoc]

/-- A run of `k` id-bit markers adds `k` to a non-negative id
accumulator. -/
theorem stripLoop_idbits {α : Type} (w : Char → Nat) (g : Int)
    (next : List (Int × clickable α)) (stack : List clickableBounds) :
    ∀ (k : Nat) (rest : List Char) (pid : Int) (prev cur : cell)
      (acc : List Char) (i : Nat), 0 ≤ pid →
      stripLoop w g (List.replicate k '￺' ++ rest) next stack pid prev cur acc i =
        stripLoop w g rest next stack (pid + (k : Int)) prev cur acc
          (i + 3 * k) := by
  intro k
  induction k with
  | zero => intro rest pid prev cur acc i _; simp
  | succ k ih =>
    intro rest pid prev cur acc i hpid
    rw [List.replicate_succ, List.cons_append]
    simp only [stripLoop]
    rw [if_pos trivial, if_neg (by omega : ¬pid = -1),
      ih rest (pid + 1) prev cur acc (i + '￺'.utf8Size) (by omega)]
    have h1 : pid + 1 + (k : Int) = pid + ((k + 1 : Nat) : Int) := by
      push_cast
      ring
    have h2 : i + '￺'.utf8Size + 3 * k = i + 3 * (k + 1) := by
      have : '￺'.utf8Size = 3 := by decide
      omega
    rw [h1, h2, if_neg (by decide : ¬ '￺' = '￹')]

/-- A closing marker with a matched, freshly-registered id commits the
bounds and pops the stack. -/
theorem stripLoop_close {α : Type} (w : Char → Nat) (g : Int)
    (next : List (Int × clickable α)) (cs : List Char)
    (top : clickableBounds) (rest : List clickableBounds) (pid : Int)
    (prev cur : cell) (acc : List Char) (i : Nat) (ex : clickable α)
    (hex : alLookup pid next = some ex) (hgen : ex.generation = g + 1) :
    stripLoop w g ('￻' :: cs) next (top :: rest) pid prev cur acc i =
      stripLoop w g cs
        (alInsert next pid { ex with bounds := { top with endCell := prev } })
        rest (if rest = [] then -1 else 0) prev cur acc
        (i + '￻'.utf8Size) := by
  rw [stripLoop, if_neg (by decide : ¬ '￻' = '￹'),
    if_neg (by decide : ¬ '￻' = '￺'), if_pos rfl]
  rw [hex]
  simp [hgen]

/-- Exhausting the input outside a sequence ends the strip normally. -/
theorem stripLoop_nil_ok {α : Type} (w : Char → Nat) (g : Int)
    (next : List (Int × clickable α)) (stack : List clickableBounds)
    (prev cur : cell) (acc : List Char) (i : Nat) :
    stripLoop w g [] next stack (-1) prev cur acc i = .ok next acc.reverse := by
  simp [stripLoop]

/-- C5 (confirmed): for every marker-free text `S`, key `K` and payload
`P`, stripping the frame produced by `registerAndWrap S K P` (with no
intervening swap) yields exactly `S`.  The two registry hypotheses are the
invariant maintained by the API (`stableId` only ever hands out
non-negative ids, since `idCounter` starts at 0 and only increments). -/
theorem c5_round_trip {α : Type} (w : Char → Nat) (cs : clickableState α)
    (S : List Char) (K : String) (P : α)
    (hS : ∀ c ∈ S, ¬isMarkerRune c)
    (hcnt : 0 ≤ cs.idCounter)
    (hkeys : ∀ p ∈ cs.stableKeyMap, 0 ≤ p.2) :
    (stripClickableSequencesFromFrame w (registerAndWrap cs S K P).1
        (registerAndWrap cs S K P).2).2 = S := by
  have hid : 0 ≤ (stableId cs K).1 := by
    unfold stableId
    cases h : alLookup K cs.stableKeyMap with
    | none => simpa using hcnt
    | some v => simpa using hkeys (K, v) (alLookup_mem h)
  have hgen : (stableId cs K).2.currentGeneration = cs.currentGeneration := by
    unfold stableId
    cases alLookup K cs.stableKeyMap <;> rfl
  have hnext : (stableId cs K).2.nextRegistered = cs.nextRegistered := by
    unfold stableId
    cases alLookup K cs.stableKeyMap <;> rfl
  unfold registerAndWrap stripClickableSequencesFromFrame
  simp only [hnext, hgen]
  rw [stripLoop_open]
  rw [stripLoop_text w cs.currentGeneration _ _ 0 (by omega) S _ _ _ _ _ hS]
  rw [stripLoop_idbits w cs.currentGeneration _ _ (stableId cs K).1.toNat _ 0
    _ _ _ _ (le_refl 0)]
  have hints : (0 : Int) + ((stableId cs K).1.toNat : Int) = (stableId cs K).1 := by
    rw [Int.toNat_of_nonneg hid]
    ring
  rw [hints]
  rw [stripLoop_close w cs.currentGeneration _ _ _ _ _ _ _ _ _ _
    (alLookup_insert_self cs.nextRegistered (stableId cs K).1 _) rfl]
  rw [if_pos rfl]
  rw [stripLoop_nil_ok]
  simp

/-- Witness for C5: a concrete round trip through `registerAndWrap` and
`stripClickableSequencesFromFrame` on a fresh registry. -/
theorem c5_round_trip_witness :
    (∀ c ∈ ['h', 'i'], ¬isMarkerRune c) ∧
    (0 : Int) ≤ (makeClickableState String).idCounter ∧
    (∀ p ∈ (makeClickableState String).stableKeyMap, (0 : Int) ≤ p.2) ∧
    (stripClickableSequencesFromFrame wOne
        (registerAndWrap (makeClickableState String) ['h', 'i'] "k" "p").1
        (registerAndWrap (makeClickableState String) ['h', 'i'] "k" "p").2).2 =
      ['h', 'i'] :=
  ⟨by decide, by decide, by decide,
   c5_round_trip wOne (makeClickableState String) ['h', 'i'] "k" "p"
     (by decide) (by decide) (by decide)⟩

/-- The fields of the state produced by the `flush` body: the pending
buffer is cleared, the commit records the (clipped) frame, `forceRepaint`
follows the pre-cleared state `r1`, and the queued message lines are
drained exactly on the full-repaint path. -/
theorem flushBody_fields (trunc : Int → String → String) (r r1 : RendererState) :
    (flushBody trunc r r1).1.buf = "" ∧
    (flushBody trunc r r1).1.lastRender = r.buf ∧
    (flushBody trunc r r1).1.lastRenderLines =
      clipLines r.height (splitLines r.buf) ∧
    (flushBody trunc r r1).1.linesRendered =
      ((clipLines r.height (splitLines r.buf)).length : Int) ∧
    (flushBody trunc r r1).1.forceRepaint = r1.forceRepaint ∧
    (flushBody trunc r r1).1.altScreenActive = r1.altScreenActive ∧
    (flushBody trunc r r1).1.queuedMessageLines =
      (if flushForce r then [] else r1.queuedMessageLines) := by
  unfold flushBody
  by_cases h : flushForce r <;> simp [h]

/-- After any `flush`, `forceRepaint` is cleared, the pending buffer is
empty or identical to `lastRender`, and queued scrollback lines remain
only when the alt screen is active. -/
theorem flush_state (trunc : Int → String → String) (r : RendererState) :
    (flush trunc r).1.forceRepaint = false ∧
    ((flush trunc r).1.buf = "" ∨ (flush trunc r).1.buf = (flush trunc r).1.lastRender) ∧
    ((flush trunc r).1.queuedMessageLines = [] ∨
      (flush trunc r).1.altScreenActive = true) := by
  unfold flush
  by_cases h : ¬flushForce r ∧ (r.buf = "" ∨ r.buf = r.lastRender)
  · rw [if_pos h]
    refine ⟨rfl, h.2, ?_⟩
    by_cases hq : r.queuedMessageLines = []
    · exact Or.inl hq
    · right
      rcases Bool.eq_false_or_eq_true r.altScreenActive with hb | hb
      · exact hb
      · exact absurd (Or.inl ⟨hq, hb⟩) h.1
  · rw [if_neg h]
    obtain ⟨hbuf, hlr, -, -, hfr, halt, hq⟩ := flushBody_fields trunc r
      { r with forceRepaint := false }
    refine ⟨hfr, Or.inl hbuf, ?_⟩
    rw [hq]
    by_cases hf : flushForce r
    · rw [if_pos hf]
      exact Or.inl rfl
    · rw [if_neg hf]
      by_cases hqe : r.queuedMessageLines = []
      · exact Or.inl hqe
      · right
        rw [halt]
        rcases Bool.eq_false_or_eq_true r.altScreenActive with hb | hb
        · exact hb
        · exact absurd (Or.inl ⟨hqe, hb⟩) hf

/-- C7 (confirmed): `flush` is idempotent at the output — once a flush has
completed, an immediately following flush with no intervening write,
queued message or force condition emits no bytes: its early exit fires
because the pending buffer is empty (the body cleared it) or was already
byte-identical to `lastRender` (early-exit case).  The hypothesis on
`ignoreLines` excludes the states on which the Go first flush would panic
(negative ignored row index) rather than complete. -/
theorem c7_flush_idempotent (trunc : Int → String → String)
    (s : RendererState) (hign : ∀ i ∈ s.ignoreLines, 0 ≤ i) :
    (flush trunc (flush trunc s).1).2 = [] := by
  obtain ⟨hfr, hbuf, hq⟩ := flush_state trunc s
  have hff : ¬flushForce (flush trunc s).1 := by
    unfold flushForce
    rintro (⟨hne, hfalse⟩ | hfr2)
    · rcases hq with hq1 | hq1
      · exact hne hq1
      · rw [hq1] at hfalse
        cases hfalse
    · rw [hfr] at hfr2
      cases hfr2
  show (flush trunc (flush trunc s).1).2 = []
  unfold flush
  rw [if_pos ⟨hff, hbuf⟩]

/-- Witness for C7 on a concrete dirty renderer state. -/
theorem c7_flush_idempotent_witness :
    (∀ i ∈ ([] : List Int), (0 : Int) ≤ i) ∧
    (flush truncId (flush truncId
      { buf := "a\nb"
        queuedMessageLines := ["msg"]
        lastRender := "a\nc"
        lastRenderLines := ["a", "c"]
        forceRepaint := false
        linesRendered := 2
        altScreenActive := false
        width := 20
        height := 10
        ignoreLines := []
        skipLines := []
        renderingHead := 0 }).1).2 = [] :=
  ⟨by decide,
   c7_flush_idempotent truncId _ (by decide)⟩

/-- C8 (confirmed): when `height > 0` and the pending frame has more lines
than `height`, `flush` drops lines from the top and renders (records as
`lastRenderLines`, with `linesRendered = height`) exactly the last
`height` lines; when `height = 0` no clipping occurs and all lines are
kept.  The first hypothesis excludes Go-panicking `ignoreLines` states;
the second states that the flush actually runs (no early exit). -/
theorem c8_height_clip (trunc : Int → String → String) (s : RendererState)
    (hign : ∀ i ∈ s.ignoreLines, 0 ≤ i)
    (hrun : flushForce s ∨ (s.buf ≠ "" ∧ s.buf ≠ s.lastRender)) :
    (0 < s.height → s.height < ((splitLines s.buf).length : Int) →
      (flush trunc s).1.lastRenderLines =
        (splitLines s.buf).drop
          ((splitLines s.buf).length - s.height.toNat) ∧
      (flush trunc s).1.linesRendered = s.height) ∧
    (s.height = 0 →
      (flush trunc s).1.lastRenderLines = splitLines s.buf ∧
      (flush trunc s).1.linesRendered = ((splitLines s.buf).length : Int)) := by
  have hcond : ¬(¬flushForce s ∧ (s.buf = "" ∨ s.buf = s.lastRender)) := by
    rcases hrun with hf | ⟨h1, h2⟩
    · exact fun hc => hc.1 hf
    · rintro ⟨-, h3 | h3⟩
      · exact h1 h3
      · exact h2 h3
  unfold flush
  rw [if_neg hcond]
  obtain ⟨-, -, hlines, hnum, -, -, -⟩ := flushBody_fields trunc s
    { s with forceRepaint := false }
  constructor
  · intro h1 h2
    have hclip : clipLines s.height (splitLines s.buf) =
        (splitLines s.buf).drop
          ((splitLines s.buf).length - s.height.toNat) := by
      unfold clipLines
      rw [if_pos ⟨h1, h2⟩]
    refine ⟨by rw [hlines, hclip], ?_⟩
    rw [hnum, hclip, List.length_drop]
    omega
  · intro h0
    have hclip : clipLines s.height (splitLines s.buf) = splitLines s.buf := by
      unfold clipLines
      rw [if_neg (by omega)]
    exact ⟨by rw [hlines, hclip], by rw [hnum, hclip]⟩

/-- Witness for C8: a 4-line frame on a height-2 terminal keeps the last
two lines; a 2-line frame with unknown height keeps both. -/
theorem c8_height_clip_witness :
    ((flush truncId tallFrameState).1.lastRenderLines =
        (splitLines tallFrameState.buf).drop 2 ∧
      (flush truncId tallFrameState).1.linesRendered = 2) ∧
    ((flush truncId unknownHeightState).1.lastRenderLines =
        splitLines unknownHeightState.buf ∧
      (flush truncId unknownHeightState).1.linesRendered =
        ((splitLines unknownHeightState.buf).length : Int)) :=
  ⟨(c8_height_clip truncId tallFrameState (by decide)
      (Or.inr ⟨by decide, by decide⟩)).1 (by decide) (by decide),
   (c8_height_clip truncId unknownHeightState (by decide)
      (Or.inr ⟨by decide, by decide⟩)).2 (by decide)⟩

/-- C10 (confirmed): `write ""` substitutes a single space for the empty
string (the pending buffer is `" "`, not empty), the following flush
leaves `lastRender = " "`, and for every non-empty `s`, `write s` replaces
the pending buffer with exactly `s`. -/
theorem c10_write_empty (r : RendererState) :
    (write r "").buf = " " ∧
    (∀ s : String, s ≠ "" → (write r s).buf = s) ∧
    (∀ trunc : Int → String → String, (∀ i ∈ r.ignoreLines, 0 ≤ i) →
      (flush trunc (write r "")).1.lastRender = " ") := by
  refine ⟨by simp [write], fun s hs => by simp [write, hs], ?_⟩
  intro trunc hign
  have hbuf : (write r "").buf = " " := by simp [write]
  unfold flush
  by_cases h : ¬flushForce (write r "") ∧
      ((write r "").buf = "" ∨ (write r "").buf = (write r "").lastRender)
  · rw [if_pos h]
    rcases h.2 with h2 | h2
    · rw [hbuf] at h2
      exact absurd h2 (by decide)
    · rw [hbuf] at h2
      show (write r "").lastRender = " "
      exact h2.symm
  · rw [if_neg h]
    have := (flushBody_fields trunc (write r "")
      { write r "" with forceRepaint := false }).2.1
    rw [this, hbuf]

/-- Witness for C10 on a concrete state whose last render differs from a
space. -/
theorem c10_write_empty_witness :
    ((write emptyWriteState "").buf = " " ∧
      (write emptyWriteState "hi").buf = "hi" ∧
      (flush truncId (write emptyWriteState "")).1.lastRender = " ") :=
  ⟨(c10_write_empty emptyWriteState).1,
   (c10_write_empty emptyWriteState).2.1 "hi" (by decide),
   (c10_write_empty emptyWriteState).2.2 truncId (by decide)⟩

/-- C3 (counterexample): on the buffer `ESC [ - 1 ; 1 R` the y-component
`"-1"` is not a non-negative decimal integer, yet
`parseCursorPositionEvent` succeeds (Go `strconv.Atoi` accepts an optional
sign): it returns `y = -1`, `x = 1` and `consumed = 7 ≠ -1`, refuting the
claim's "exactly when". -/
theorem c3_cpr_counterexample :
    parseCursorPositionEvent [27, 91, 45, 49, 59, 49, 82] =
      some (⟨1, -1⟩, 7) ∧ (7 : Int) ≠ -1 := by
  constructor <;> decide

/-- `firstIdx` misses exactly when no element satisfies the predicate. -/
theorem firstIdx_none_iff (p : UInt8 → Bool) :
    ∀ l : List UInt8, firstIdx p l = none ↔ ∀ a ∈ l, p a = false := by
  intro l
  induction l with
  | nil => simp [firstIdx]
  | cons c l ih =>
    rw [firstIdx]
    by_cases hc : p c
    · simp [hc]
    · rw [if_neg hc, Option.map_eq_none', ih]
      constructor
      · intro h a ha
        rcases List.mem_cons.mp ha with rfl | ha1
        · exact Bool.eq_false_iff.mpr hc
        · exact h a ha1
      · intro h a ha
        exact h a (List.mem_cons_of_mem _ ha)

/-- A hit of `firstIdx` decomposes the list into a clean prefix, the hit,
and a tail. -/
theorem firstIdx_decomp (p : UInt8 → Bool) :
    ∀ (l : List UInt8) (r : Nat), firstIdx p l = some r →
      ∃ pre c post, l = pre ++ c :: post ∧ pre.length = r ∧ p c = true ∧
        ∀ a ∈ pre, p a = false := by
  intro l
  induction l with
  | nil => intro r h; simp [firstIdx] at h
  | cons c l ih =>
    intro r h
    by_cases hc : p c
    · rw [firstIdx, if_pos hc] at h
      cases h
      exact ⟨[], c, l, rfl, rfl, hc, by simp⟩
    · rw [firstIdx, if_neg hc] at h
      rcases Option.map_eq_some.mp h with ⟨r1, hr1, hr⟩
      rcases ih r1 hr1 with ⟨pre, d, post, hdec, hlen, hd, hpre⟩
      refine ⟨c :: pre, d, post, by rw [hdec]; rfl, by simp [hlen, hr], hd, ?_⟩
      intro a ha
      rcases List.mem_cons.mp ha with rfl | ha
      · exact Bool.eq_false_iff.mpr hc
      · exact hpre a ha

/-- The scan skips over bytes that are neither `;` nor `R`, advancing the
index. -/
theorem cprScan_skip :
    ∀ (pre l : List UInt8) (i : Nat) (sep : Option Nat),
      (∀ a ∈ pre, isSemiByte a = false ∧ isRByte a = false) →
      cprScan (pre ++ l) i sep = cprScan l (i + pre.length) sep := by
  intro pre
  induction pre with
  | nil => intro l i sep _; simp
  | cons a pre ih =>
    intro l i sep h
    have ha := h a (List.mem_cons_self _ _)
    have h1 : ¬a = 59 := by
      intro hh
      rw [hh] at ha
      simp [isSemiByte] at ha
    have h2 : ¬a = 82 := by
      intro hh
      rw [hh] at ha
      simp [isRByte] at ha
    rw [List.cons_append]
    show cprScan (a :: (pre ++ l)) i sep = _
    simp only [cprScan]
    rw [if_neg h1, if_neg h2,
      ih l (i + 1) sep (fun b hb => h b (List.mem_cons_of_mem _ hb))]
    congr 1
    simp [List.length_cons]
    omega

/-- Scanning an exhausted buffer reports `endIdx = 0`. -/
theorem cprScan_nil (i : Nat) (sep : Option Nat) :
    cprScan [] i sep = .done 0 sep := rfl

/-- The first `;` is recorded and the scan continues. -/
theorem cprScan_semi_first (l : List UInt8) (i : Nat) :
    cprScan (59 :: l) i none = cprScan l (i + 1) (some i) := by
  simp [cprScan]

/-- A second `;` aborts the scan. -/
theorem cprScan_semi_second (l : List UInt8) (i s : Nat) :
    cprScan (59 :: l) i (some s) = .twoSemis := by
  simp [cprScan]

/-- The first `R` ends the scan. -/
theorem cprScan_r (l : List UInt8) (i : Nat) (sep : Option Nat) :
    cprScan (82 :: l) i sep = .done i sep := by
  simp [cprScan]

/-- A list none of whose elements satisfies `p` filters to `[]`. -/
theorem filter_nil_of_false {p : UInt8 → Bool} :
    ∀ {l : List UInt8}, (∀ a ∈ l, p a = false) → l.filter p = [] := by
  intro l
  induction l with
  | nil => intro _; rfl
  | cons b l ih =>
    intro h
    rw [List.filter_cons,
      if_neg (by rw [h b (List.mem_cons_self _ _)]; exact Bool.false_ne_true)]
    exact ih (fun a ha => h a (List.mem_cons_of_mem _ ha))

/-- Decomposition of a buffer at its first `;`. -/
theorem cpr_decomp_semi {buf : List UInt8} {s : Nat}
    (hS : firstIdx isSemiByte buf = some s) :
    ∃ preS postS, buf = preS ++ 59 :: postS ∧ preS.length = s ∧
      ∀ a ∈ preS, isSemiByte a = false := by
  rcases firstIdx_decomp isSemiByte buf s hS with ⟨pre, c, post, hdec, hlen, hc, hpre⟩
  have hc59 : c = 59 := by simpa [isSemiByte] using hc
  subst hc59
  exact ⟨pre, post, hdec, hlen, hpre⟩

/-- Decomposition of a buffer at its first `R`. -/
theorem cpr_decomp_r {buf : List UInt8} {r : Nat}
    (hR : firstIdx isRByte buf = some r) :
    ∃ preR postR, buf = preR ++ 82 :: postR ∧ preR.length = r ∧
      ∀ a ∈ preR, isRByte a = false := by
  rcases firstIdx_decomp isRByte buf r hR with ⟨pre, c, post, hdec, hlen, hc, hpre⟩
  have hc82 : c = 82 := by simpa [isRByte] using hc
  subst hc82
  exact ⟨pre, post, hdec, hlen, hpre⟩

/-- `parseCursorPositionEvent` on a double-semicolon scan failure. -/
theorem parse_of_scan_twoSemis {buf : List UInt8}
    (h : cprScan buf 0 none = .twoSemis) :
    parseCursorPositionEvent buf = some (⟨0, 0⟩, -1) := by
  unfold parseCursorPositionEvent
  rw [h]

/-- `parseCursorPositionEvent` when the scan found no terminating `R`. -/
theorem parse_of_scan_done_zero {buf : List UInt8} {sep : Option Nat}
    (h : cprScan buf 0 none = .done 0 sep) :
    parseCursorPositionEvent buf = some (⟨0, 0⟩, -1) := by
  unfold parseCursorPositionEvent
  rw [h]
  simp

/-- `parseCursorPositionEvent` when the scan found an `R` but no prior
separator. -/
theorem parse_of_scan_done_none {buf : List UInt8} {r : Nat}
    (h : cprScan buf 0 none = .done r none) (hr : r ≠ 0) :
    parseCursorPositionEvent buf = some (⟨0, 0⟩, -1) := by
  unfold parseCursorPositionEvent
  rw [h]
  simp [hr]

/-- `parseCursorPositionEvent` when the scan succeeded with `endIdx = r`
and a separator at `s ≥ 2`: the result is decided by the two `Atoi`
calls. -/
theorem parse_of_scan_done_some {buf : List UInt8} {r s : Nat}
    (h : cprScan buf 0 none = .done r (some s)) (hr : r ≠ 0)
    (hc : 59 ∈ buf) (hs2 : ¬s < 2) :
    parseCursorPositionEvent buf =
      (match goAtoi (byteSlice buf 2 s) with
      | none => some (⟨0, 0⟩, -1)
      | some y =>
        match goAtoi (byteSlice buf (s + 1) r) with
        | none => some (⟨0, y⟩, -1)
        | some x => some (⟨x, y⟩, (r : Int) + 1)) := by
  unfold parseCursorPositionEvent
  rw [h]
  simp [hr, hc, hs2]

/-- C3 (amended): for every byte buffer beginning with `ESC [` (as the
dispatcher guarantees; without that prefix a separator at offset 0 or 1
makes the Go slice `buf[2:sepIdx]` panic), `parseCursorPositionEvent`
always returns, and `consumed = -1` exactly when the buffer has no
terminating `R`, or no `;` before the first `R`, or a second `;` before
the first `R`, or either numeric component fails to parse as an
*optionally signed* decimal integer per Go `strconv.Atoi` (not
"non-negative" as claimed); otherwise it returns `y` parsed from the
bytes between offset 2 and the `;`, `x` from the bytes between the `;`
and the `R`, unrebased, with `consumed = endIdx + 1`. -/
theorem c3_cpr_amended (rest : List UInt8) :
    ∃ ev c, parseCursorPositionEvent (27 :: 91 :: rest) = some (ev, c) ∧
      (c ≠ -1 ↔ cprSuccess (27 :: 91 :: rest)) ∧
      (∀ r s y x,
        firstIdx isRByte (27 :: 91 :: rest) = some r →
        firstIdx isSemiByte (27 :: 91 :: rest) = some s → s < r →
        (((27 :: 91 :: rest).take r).filter isSemiByte).length = 1 →
        goAtoi (byteSlice (27 :: 91 :: rest) 2 s) = some y →
        goAtoi (byteSlice (27 :: 91 :: rest) (s + 1) r) = some x →
        ev = ⟨x, y⟩ ∧ c = (r : Int) + 1) := by
  set buf := (27 :: 91 :: rest : List UInt8) with hbuf
  cases hR : firstIdx isRByte buf with
  | none =>
    have hRfree := (firstIdx_none_iff isRByte buf).mp hR
    have hfail : ∀ P : Prop, cprSuccess buf → P := by
      rintro P ⟨r, s, y, x, hR1, -⟩
      rw [hR] at hR1
      cases hR1
    cases hS : firstIdx isSemiByte buf with
    | none =>
      have hSfree := (firstIdx_none_iff isSemiByte buf).mp hS
      have hscan : cprScan buf 0 none = .done 0 none := by
        have h1 := cprScan_skip buf [] 0 none (fun a ha => ⟨hSfree a ha, hRfree a ha⟩)
        rw [List.append_nil] at h1
        rw [h1]
        exact cprScan_nil _ _
      exact ⟨⟨0, 0⟩, -1, parse_of_scan_done_zero hscan,
        ⟨fun hne => absurd rfl hne, fun hsucc => hfail _ hsucc⟩,
        fun r s y x h1 h2 h3 h4 h5 h6 => Option.noConfusion h1⟩
    | some s =>
      rcases cpr_decomp_semi hS with ⟨preS, postS, hdecS, hlenS, hpreS⟩
      have hpreSR : ∀ a ∈ preS, isRByte a = false := fun a ha =>
        hRfree a (by rw [hdecS]; exact List.mem_append_left _ ha)
      have hscan1 : cprScan buf 0 none = cprScan postS (s + 1) (some s) := by
        conv_lhs => rw [hdecS]
        rw [cprScan_skip preS _ 0 none (fun a ha => ⟨hpreS a ha, hpreSR a ha⟩),
          Nat.zero_add, hlenS, cprScan_semi_first]
      cases hS2 : firstIdx isSemiByte postS with
      | none =>
        have hpfree := (firstIdx_none_iff isSemiByte postS).mp hS2
        have hpR : ∀ a ∈ postS, isRByte a = false := fun a ha =>
          hRfree a (by
            rw [hdecS]
            exact List.mem_append_right _ (List.mem_cons_of_mem _ ha))
        have hscan : cprScan buf 0 none = .done 0 (some s) := by
          rw [hscan1]
          have h1 := cprScan_skip postS [] (s + 1) (some s)
            (fun a ha => ⟨hpfree a ha, hpR a ha⟩)
          rw [List.append_nil] at h1
          rw [h1]
          exact cprScan_nil _ _
        exact ⟨⟨0, 0⟩, -1, parse_of_scan_done_zero hscan,
          ⟨fun hne => absurd rfl hne, fun hsucc => hfail _ hsucc⟩,
          fun r s y x h1 h2 h3 h4 h5 h6 => Option.noConfusion h1⟩
      | some k =>
        rcases cpr_decomp_semi hS2 with ⟨m1, m2, hdm, hlm, hm1⟩
        have hm1R : ∀ a ∈ m1, isRByte a = false := fun a ha =>
          hRfree a (by
            rw [hdecS, hdm]
            exact List.mem_append_right _
              (List.mem_cons_of_mem _ (List.mem_append_left _ ha)))
        have hscan : cprScan buf 0 none = .twoSemis := by
          rw [hscan1, hdm,
            cprScan_skip m1 _ (s + 1) (some s)
              (fun a ha => ⟨hm1 a ha, hm1R a ha⟩),
            cprScan_semi_second]
        exact ⟨⟨0, 0⟩, -1, parse_of_scan_twoSemis hscan,
          ⟨fun hne => absurd rfl hne, fun hsucc => hfail _ hsucc⟩,
          fun r s y x h1 h2 h3 h4 h5 h6 => Option.noConfusion h1⟩
  | some r =>
    rcases cpr_decomp_r hR with ⟨preR, postR, hdecR, hlenR, hpreR⟩
    have hr0 : r ≠ 0 := by
      intro h0
      rw [h0, List.length_eq_zero] at hlenR
      rw [hlenR, List.nil_append] at hdecR
      have h2 : (27 : UInt8) :: 91 :: rest = 82 :: postR := hbuf.symm.trans hdecR
      injection h2 with h3 _
      exact absurd h3 (by decide)
    have hpreR_take : buf.take r = preR := by
      rw [hdecR, ← hlenR, List.take_left]
    cases hS : firstIdx isSemiByte buf with
    | none =>
      have hSfree := (firstIdx_none_iff isSemiByte buf).mp hS
      have hscan : cprScan buf 0 none = .done r none := by
        conv_lhs => rw [hdecR]
        rw [cprScan_skip preR _ 0 none
          (fun a ha =>
            ⟨hSfree a (by rw [hdecR]; exact List.mem_append_left _ ha),
              hpreR a ha⟩),
          Nat.zero_add, hlenR, cprScan_r]
      refine ⟨⟨0, 0⟩, -1, parse_of_scan_done_none hscan hr0,
        ⟨fun hne => absurd rfl hne, ?_⟩, ?_⟩
      · rintro ⟨r1, s1, y1, x1, -, hS1, -⟩
        rw [hS] at hS1
        cases hS1
      · intro r1 s1 y1 x1 hR1 hS1 h3 h4 h5 h6
        exact Option.noConfusion hS1
    | some s =>
      rcases cpr_decomp_semi hS with ⟨preS, postS, hdecS, hlenS, hpreS⟩
      have hpreS_take : buf.take s = preS := by
        rw [hdecS, ← hlenS, List.take_left]
      rcases lt_trichotomy s r with hsr | hsr | hsr
      · -- the separator precedes the first R
        have hs1r : s + 1 ≤ r := hsr
        have hpreS_R : ∀ a ∈ preS, isRByte a = false := by
          intro a ha
          apply hpreR
          rw [← hpreR_take]
          rw [← hpreS_take] at ha
          have he : (buf.take r).take s = buf.take s := by
            rw [List.take_take, min_eq_left (le_of_lt hsr)]
          rw [← he] at ha
          exact List.take_subset _ _ ha
        have hpostS_eq : postS = preR.drop (s + 1) ++ 82 :: postR := by
          have h1 : buf.drop s = 59 :: postS := by
            rw [hdecS, ← hlenS, List.drop_left]
          have h2 : buf.drop (s + 1) = postS := by
            have h3 := congrArg (List.drop 1) h1
            rw [List.drop_drop] at h3
            simpa using h3
          have h4 : buf.drop (s + 1) = preR.drop (s + 1) ++ 82 :: postR := by
            rw [hdecR, List.drop_append_eq_append_drop, hlenR,
              Nat.sub_eq_zero_of_le hs1r, List.drop]
          rw [← h2, h4]
        have hmidlen : (preR.drop (s + 1)).length = r - (s + 1) := by
          rw [List.length_drop, hlenR]
        have hmidR : ∀ a ∈ preR.drop (s + 1), isRByte a = false := fun a ha =>
          hpreR a (List.drop_subset _ _ ha)
        have hscan1 : cprScan buf 0 none = cprScan postS (s + 1) (some s) := by
          conv_lhs => rw [hdecS]
          rw [cprScan_skip preS _ 0 none
            (fun a ha => ⟨hpreS a ha, hpreS_R a ha⟩),
            Nat.zero_add, hlenS, cprScan_semi_first]
        have htake_r : buf.take r = preS ++ 59 :: preR.drop (s + 1) := by
          have hb2 : buf = (preS ++ 59 :: preR.drop (s + 1)) ++ 82 :: postR := by
            rw [hdecS, hpostS_eq]
            simp
          rw [hb2, List.take_left' (by simp [hlenS]; omega)]
        cases hmid : firstIdx isSemiByte (preR.drop (s + 1)) with
        | some k =>
          rcases cpr_decomp_semi hmid with ⟨m1, m2, hdm, hlm, hm1⟩
          have hm1R : ∀ a ∈ m1, isRByte a = false := fun a ha =>
            hmidR a (by rw [hdm]; exact List.mem_append_left _ ha)
          have hscan : cprScan buf 0 none = .twoSemis := by
            rw [hscan1, hpostS_eq, hdm, List.append_assoc, List.cons_append,
              cprScan_skip m1 _ (s + 1) (some s)
                (fun a ha => ⟨hm1 a ha, hm1R a ha⟩),
              cprScan_semi_second]
          have hcount : ((buf.take r).filter isSemiByte).length ≠ 1 := by
            rw [htake_r, List.filter_append, filter_nil_of_false hpreS,
              List.filter_cons, hdm, List.filter_append,
              filter_nil_of_false hm1, List.filter_cons]
            simp [isSemiByte]
          refine ⟨⟨0, 0⟩, -1, parse_of_scan_twoSemis hscan,
            ⟨fun hne => absurd rfl hne, ?_⟩, ?_⟩
          · rintro ⟨r1, s1, y1, x1, hR1, hS1, -, hc1, -, -⟩
            rw [hR] at hR1
            have h7 := Option.some.inj hR1
            subst h7
            exact absurd hc1 hcount
          · intro r1 s1 y1 x1 hR1 hS1 h3 hc1 h5 h6
            have h7 := Option.some.inj hR1
            subst h7
            exact absurd hc1 hcount
        | none =>
          have hmidfree := (firstIdx_none_iff isSemiByte (preR.drop (s + 1))).mp hmid
          have hscan : cprScan buf 0 none = .done r (some s) := by
            rw [hscan1, hpostS_eq,
              cprScan_skip (preR.drop (s + 1)) _ (s + 1) (some s)
                (fun a ha => ⟨hmidfree a ha, hmidR a ha⟩),
              cprScan_r]
            congr 1
            rw [hmidlen]
            omega
          have hmem59 : (59 : UInt8) ∈ buf := by
            rw [hdecS]
            exact List.mem_append_right _ (List.mem_cons_self _ _)
          have hs2 : ¬s < 2 := by
            intro hlt2
            have hx : preS ++ 59 :: postS = 27 :: 91 :: rest := by
              rw [← hdecS, hbuf]
            interval_cases s
            · rw [List.length_eq_zero] at hlenS
              rw [hlenS, List.nil_append] at hx
              injection hx with h1 _
              exact absurd h1 (by decide)
            · rcases List.length_eq_one.mp hlenS with ⟨a, ha⟩
              rw [ha, List.cons_append, List.nil_append] at hx
              injection hx with h1 hx2
              injection hx2 with h2 _
              exact absurd h2 (by decide)
          have hcount1 : ((buf.take r).filter isSemiByte).length = 1 := by
            rw [htake_r, List.filter_append, filter_nil_of_false hpreS,
              List.filter_cons, filter_nil_of_false hmidfree]
            simp [isSemiByte]
          have hparse := parse_of_scan_done_some hscan hr0 hmem59 hs2
          cases hy : goAtoi (byteSlice buf 2 s) with
          | none =>
            rw [hy] at hparse
            refine ⟨⟨0, 0⟩, -1, hparse, ⟨fun hne => absurd rfl hne, ?_⟩, ?_⟩
            · rintro ⟨r1, s1, y1, x1, hR1, hS1, -, -, hy1, -⟩
              rw [hS] at hS1
              have h7 := Option.some.inj hS1
              subst h7
              rw [hy] at hy1
              cases hy1
            · intro r1 s1 y1 x1 hR1 hS1 h3 h4 hy1 h6
              have h7 := Option.some.inj hS1
              subst h7
              rw [hy] at hy1
              cases hy1
          | some y =>
            cases hx : goAtoi (byteSlice buf (s + 1) r) with
            | none =>
              rw [hy, hx] at hparse
              refine ⟨⟨0, y⟩, -1, hparse, ⟨fun hne => absurd rfl hne, ?_⟩, ?_⟩
              · rintro ⟨r1, s1, y1, x1, hR1, hS1, -, -, -, hx1⟩
                rw [hR] at hR1
                have h7 := Option.some.inj hR1
                subst h7
                rw [hS] at hS1
                have h8 := Option.some.inj hS1
                subst h8
                rw [hx] at hx1
                cases hx1
              · intro r1 s1 y1 x1 hR1 hS1 h3 h4 h5 hx1
                have h7 := Option.some.inj hR1
                subst h7
                have h8 := Option.some.inj hS1
                subst h8
                rw [hx] at hx1
                cases hx1
            | some x =>
              rw [hy, hx] at hparse
              refine ⟨⟨x, y⟩, (r : Int) + 1, hparse,
                ⟨fun _ => ⟨r, s, y, x, hR, hS, hsr, hcount1, hy, hx⟩,
                  fun _ => by omega⟩, ?_⟩
              intro r1 s1 y1 x1 hR1 hS1 h3 h4 hy1 hx1
              have h7 := Option.some.inj hR1
              subst h7
              have h8 := Option.some.inj hS1
              subst h8
              rw [hy] at hy1
              rw [hx] at hx1
              have h9 := Option.some.inj hy1
              have h10 := Option.some.inj hx1
              subst h9
              subst h10
              exact ⟨rfl, rfl⟩
      · -- separator and R at the same index: impossible
        exfalso
        have hpp : preS = preR := by
          rw [← hpreS_take, ← hpreR_take, hsr]
        have h3 : preR ++ 59 :: postS = preR ++ 82 :: postR := by
          have h9 : preS ++ 59 :: postS = preR ++ 82 :: postR :=
            hdecS.symm.trans hdecR
          rw [hpp] at h9
          exact h9
        have h4 := List.append_cancel_left h3
        injection h4 with h5 _
        exact absurd h5 (by decide)
      · -- the first R precedes the separator: no `;` before `R`
        have hpreR_semifree : ∀ a ∈ preR, isSemiByte a = false := by
          intro a ha
          apply hpreS
          rw [← hpreS_take]
          rw [← hpreR_take] at ha
          have he : (buf.take s).take r = buf.take r := by
            rw [List.take_take, min_eq_left (le_of_lt hsr)]
          rw [← he] at ha
          exact List.take_subset _ _ ha
        have hscan : cprScan buf 0 none = .done r none := by
          conv_lhs => rw [hdecR]
          rw [cprScan_skip preR _ 0 none
            (fun a ha => ⟨hpreR_semifree a ha, hpreR a ha⟩),
            Nat.zero_add, hlenR, cprScan_r]
        refine ⟨⟨0, 0⟩, -1, parse_of_scan_done_none hscan hr0,
          ⟨fun hne => absurd rfl hne, ?_⟩, ?_⟩
        · rintro ⟨r1, s1, y1, x1, hR1, hS1, hlt, -, -, -⟩
          rw [hR] at hR1
          have h7 := Option.some.inj hR1
          subst h7
          rw [hS] at hS1
          have h8 := Option.some.inj hS1
          subst h8
          omega
        · intro r1 s1 y1 x1 hR1 hS1 hlt h4 h5 h6
          have h7 := Option.some.inj hR1
          subst h7
          have h8 := Option.some.inj hS1
          subst h8
          omega

/-- Witness for C3 (amended) on the reply `ESC [ 1 ; 2 R`: the success
condition holds with `r = 5`, `s = 3`, `y = 1`, `x = 2`, and the parser
returns `CursorPosition{X = 2, Y = 1}` with `consumed = 6`. -/
theorem c3_cpr_amended_witness :
    parseCursorPositionEvent [27, 91, 49, 59, 50, 82] = some (⟨2, 1⟩, 6) ∧
    cprSuccess [27, 91, 49, 59, 50, 82] := by
  obtain ⟨ev, c, hp, hiff, hpin⟩ := c3_cpr_amended [49, 59, 50, 82]
  obtain ⟨hev, hc⟩ := hpin 5 3 1 2 (by decide) (by decide) (by decide)
    (by decide) (by decide) (by decide)
  subst hev
  subst hc
  exact ⟨hp,
    ⟨5, 3, 1, 2, by decide, by decide, by decide, by decide, by decide,
      by decide⟩⟩

end Tea
